import Mathlib

/-!
Verification of the catchup seeder service
(`plenum/server/catchup/seeder_service.py`).

The service answers `LedgerStatus` and `CatchupReq` messages from lagging
peers: it validates them, builds Merkle consistency proofs and transaction
batches, and sends responses through a provider callback.  External
collaborators (the Merkle tree engine, the ledger storage, the provider)
are modelled as records of abstract function fields; the seeder logic
itself is translated statement by statement from the source.

Sequence numbers and ledger ids are modelled as `Int` (Python integers);
hashes and transactions are type parameters.  Sending is modelled by
returning the list of messages passed to `provider.send_to`, in order.
A handler that would let an exception escape returns `none`.
-/

/-- Wire message `LedgerStatus` (fields used by the seeder plus the
schema fields filled in by `build_ledger_status`). -/
structure LedgerStatus where
  ledgerId : Int
  txnSeqNo : Int
  viewNo : Int
  ppSeqNo : Int
  merkleRoot : String
  protocolVersion : Int
deriving DecidableEq, Repr

/-- Wire message `CatchupReq`. -/
structure CatchupReq where
  ledgerId : Int
  seqNoStart : Int
  seqNoEnd : Int
  catchupTill : Int
deriving DecidableEq, Repr

/-- Wire message `ConsistencyProof`. -/
structure ConsistencyProof where
  ledgerId : Int
  seqNoStart : Int
  seqNoEnd : Int
  viewNo : Int
  ppSeqNo : Int
  oldMerkleRoot : String
  newMerkleRoot : String
  hashes : List String
deriving DecidableEq, Repr

/-- Wire message `CatchupRep`.  `txns` is the ordered-by-SeqNo mapping
(`SortedDict` in the source), modelled as an association list in key
order. -/
structure CatchupRep (Txn : Type) where
  ledgerId : Int
  txns : List (Int × Txn)
  consProof : List String
deriving DecidableEq, Repr

/-- The Merkle proof engine bound to one ledger (`ledger.tree` in the
source): an external collaborator, modelled abstractly. -/
structure MerkleTree (Hash : Type) where
  root_hash : Hash
  merkle_tree_hash : Int → Int → Hash
  consistency_proof : Int → Int → List Hash

/-- Read-only ledger view (`plenum.common.ledger.Ledger`): an external
collaborator, modelled abstractly.  `getAllTxn a b` is the ordered
iterator over the inclusive range `[a, b]`. -/
structure Ledger (Hash Txn : Type) where
  size : Int
  tree : MerkleTree Hash
  getAllTxn : Int → Int → List (Int × Txn)

/-- The `CatchupDataProvider` collaborator.  `build_ledger_status` stands
for `plenum.server.catchup.utils.build_ledger_status`, whose code is not
part of the seeder: it produces the node's own current status for a
ledger. -/
structure CatchupDataProvider (Hash Txn : Type) where
  node_name : String
  update_txn_with_extra_data : Txn → Txn
  three_phase_key_for_txn_seq_no : Int → Int → Option (Int × Int)
  build_ledger_status : Int → Ledger Hash Txn → LedgerStatus

/-- One message handed to `provider.send_to`, together with its
destination. -/
inductive OutMsg (Txn : Type) where
  | ledgerStatus (st : LedgerStatus) (dest : String)
  | consistencyProof (cp : ConsistencyProof) (dest : String)
  | catchupRep (rep : CatchupRep Txn) (dest : String)
deriving DecidableEq, Repr

/-- State of a `SeederService` instance: the provider, the registered
ledgers (`self._ledgers`, a dict), the client/peer flag, and the hash
serialization function `Ledger.hashToStr` (hex encoding, modelled
abstractly). -/
structure SeederService (Hash Txn : Type) where
  provider : CatchupDataProvider Hash Txn
  ledgers : List (Int × Ledger Hash Txn)
  echo_ledger_status_if_up_to_date : Bool
  hashToStr : Hash → String

/-- Python dict lookup `self._ledgers.get(ledger_id)`. -/
def dictGet {α : Type} (d : List (Int × α)) (k : Int) : Option α :=
  (d.find? (fun p => p.1 == k)).map (fun p => p.2)

/-- `SeederService._get_ledger_and_id`. -/
def SeederService.get_ledger_and_id {Hash Txn : Type} (s : SeederService Hash Txn)
    (ledgerId : Int) : Int × Option (Ledger Hash Txn) :=
  (ledgerId, dictGet s.ledgers ledgerId)

/-- `SeederService._make_consistency_proof`: the tree's consistency proof
with every hash serialized. -/
def SeederService.make_consistency_proof {Hash Txn : Type} (s : SeederService Hash Txn)
    (ledger : Ledger Hash Txn) (seq_no_start seq_no_end : Int) : List String :=
  (ledger.tree.consistency_proof seq_no_start seq_no_end).map s.hashToStr

/-- `SeederService._build_consistency_proof`.  `none` models an uncaught
`KeyError` on `self._ledgers[ledger_id]`; `some (.error e)` models a
raised `ValueError e`; `some (.ok cp)` a normal return. -/
def SeederService.build_consistency_proof {Hash Txn : Type} (s : SeederService Hash Txn)
    (ledger_id seq_no_start seq_no_end : Int) :
    Option (Except String ConsistencyProof) :=
  match dictGet s.ledgers ledger_id with
  | none => none
  | some ledger =>
    if seq_no_end < seq_no_start then
      some (Except.error "end is less than start")
    else if seq_no_start > ledger.size then
      some (Except.error "start is more than ledger size")
    else if seq_no_end > ledger.size then
      some (Except.error "end is more than ledger size")
    else
      let pair :=
        if seq_no_start = 0 then
          let old_root := s.hashToStr ledger.tree.root_hash
          (old_root, [old_root])
        else
          (s.hashToStr (ledger.tree.merkle_tree_hash 0 seq_no_start),
           s.make_consistency_proof ledger seq_no_start seq_no_end)
      let new_root := s.hashToStr (ledger.tree.merkle_tree_hash 0 seq_no_end)
      let three_pc_key := s.provider.three_phase_key_for_txn_seq_no ledger_id seq_no_end
      let key := three_pc_key.getD (0, 0)
      some (Except.ok
        { ledgerId := ledger_id
          seqNoStart := seq_no_start
          seqNoEnd := seq_no_end
          viewNo := key.1
          ppSeqNo := key.2
          oldMerkleRoot := pair.1
          newMerkleRoot := new_root
          hashes := pair.2 })

/-- `SeederService.process_ledger_status`.  Returns the state after the
call and the messages sent, or `none` if an exception would escape the
handler (only a `KeyError` inside `_build_consistency_proof` could; a
`ValueError` is caught and the message dropped). -/
def SeederService.process_ledger_status {Hash Txn : Type} (s : SeederService Hash Txn)
    (status : LedgerStatus) (frm : String) :
    Option (SeederService Hash Txn × List (OutMsg Txn)) :=
  match (s.get_ledger_and_id status.ledgerId).2 with
  | none => some (s, [])
  | some ledger =>
    if status.txnSeqNo < 0 then
      some (s, [])
    else if status.txnSeqNo ≥ ledger.size then
      if s.echo_ledger_status_if_up_to_date then
        some (s, [OutMsg.ledgerStatus
          (s.provider.build_ledger_status (s.get_ledger_and_id status.ledgerId).1 ledger) frm])
      else
        some (s, [])
    else
      match s.build_consistency_proof status.ledgerId status.txnSeqNo ledger.size with
      | none => none
      | some (Except.error _) => some (s, [])
      | some (Except.ok cons_proof) =>
          some (s, [OutMsg.consistencyProof cons_proof frm])

/-- Python dict update `txns[seq_no] = txn`: overwrite in place if the key
exists, otherwise append (insertion order). -/
def pyDictInsert {Txn : Type} (d : List (Int × Txn)) (k : Int) (v : Txn) :
    List (Int × Txn) :=
  if d.any (fun p => p.1 == k) then
    d.map (fun p => if p.1 == k then (k, v) else p)
  else
    d ++ [(k, v)]

/-- The dict-building loop of `process_catchup_req`: for each
`(seq_no, txn)` yielded by `getAllTxn`, store the decorated transaction
under `seq_no`. -/
def buildTxnsDict {Hash Txn : Type} (s : SeederService Hash Txn)
    (pairs : List (Int × Txn)) : List (Int × Txn) :=
  pairs.foldl
    (fun d p => pyDictInsert d p.1 (s.provider.update_txn_with_extra_data p.2)) []

/-- Insert a pair into an association list kept sorted by key. -/
def insertByKey {Txn : Type} (p : Int × Txn) :
    List (Int × Txn) → List (Int × Txn)
  | [] => [p]
  | q :: qs => if p.1 ≤ q.1 then p :: q :: qs else q :: insertByKey p qs

/-- `SortedDict`: reorder an association list into ascending key order
(insertion sort; keys coming from a Python dict are distinct). -/
def sortByKey {Txn : Type} : List (Int × Txn) → List (Int × Txn)
  | [] => []
  | p :: ps => insertByKey p (sortByKey ps)

/-- `SeederService.process_catchup_req`: validate, build the consistency
proof from `seqNoEnd` to `catchupTill`, collect the decorated
transactions of `[seqNoStart, seqNoEnd]` into a sorted dict, and send one
`CatchupRep`. -/
def SeederService.process_catchup_req {Hash Txn : Type} (s : SeederService Hash Txn)
    (req : CatchupReq) (frm : String) :
    SeederService Hash Txn × List (OutMsg Txn) :=
  match (s.get_ledger_and_id req.ledgerId).2 with
  | none => (s, [])
  | some ledger =>
    if req.seqNoStart > req.seqNoEnd then
      (s, [])
    else if req.seqNoEnd > req.catchupTill then
      (s, [])
    else if req.catchupTill > ledger.size then
      (s, [])
    else
      let cons_proof :=
        (ledger.tree.consistency_proof req.seqNoEnd req.catchupTill).map s.hashToStr
      let txns := sortByKey (buildTxnsDict s (ledger.getAllTxn req.seqNoStart req.seqNoEnd))
      (s, [OutMsg.catchupRep
        { ledgerId := (s.get_ledger_and_id req.ledgerId).1
          txns := txns
          consProof := cons_proof } frm])

/-- The closure returned by
`SeederService._make_splitter_for_catchup_rep(ledger, initial_seq_no)`,
applied to a message.  Outer `none` models an uncaught exception
(`left[-1]` / `right[-1]` on an empty list); `some none` is the `None`
return (too few transactions); `some (some (l, r))` the two halves. -/
def SeederService.catchup_rep_split {Hash Txn : Type} (s : SeederService Hash Txn)
    (ledger : Ledger Hash Txn) (initial_seq_no : Int) (message : CatchupRep Txn) :
    Option (Option (CatchupRep Txn × CatchupRep Txn)) :=
  let txns := message.txns
  if message.txns.length < 2 then
    some none
  else
    let divider := message.txns.length / 2
    let left := txns.take divider
    let right := txns.drop divider
    match left.getLast?, right.getLast? with
    | some left_last, some right_last =>
      let left_cons_proof := s.make_consistency_proof ledger left_last.1 initial_seq_no
      let right_cons_proof := s.make_consistency_proof ledger right_last.1 initial_seq_no
      some (some
        ({ ledgerId := message.ledgerId, txns := sortByKey left,
           consProof := left_cons_proof },
         { ledgerId := message.ledgerId, txns := sortByKey right,
           consProof := right_cons_proof }))
    | _, _ => none

/-- The inclusive integer range `[a, b]` in ascending order (empty when
`b < a`). -/
def intRange (a b : Int) : List Int :=
  (List.range (b - a + 1).toNat).map (fun k => a + Int.ofNat k)

/-! ### Concrete fixtures used by the witnesses -/

/-- A concrete Merkle engine over `Nat` hashes, for witnesses. -/
def wTree : MerkleTree Nat :=
  { root_hash := 77
    merkle_tree_hash := fun a b => (100 * a + b).toNat
    consistency_proof := fun a b => [a.toNat, b.toNat, a.toNat + b.toNat] }

/-- A concrete ledger with 5 transactions, for witnesses. -/
def wLedger : Ledger Nat Nat :=
  { size := 5
    tree := wTree
    getAllTxn := fun a b => (intRange a b).map (fun i => (i, i.toNat * 7)) }

/-- A concrete provider, for witnesses. -/
def wProvider : CatchupDataProvider Nat Nat :=
  { node_name := "witness-node"
    update_txn_with_extra_data := fun t => t + 1
    three_phase_key_for_txn_seq_no := fun _ _ => none
    build_ledger_status := fun lid l =>
      { ledgerId := lid, txnSeqNo := l.size, viewNo := 0, ppSeqNo := 0,
        merkleRoot := "", protocolVersion := 2 } }

/-- A concrete client-facing seeder with ledger 1 registered. -/
def wClient : SeederService Nat Nat :=
  { provider := wProvider
    ledgers := [(1, wLedger)]
    echo_ledger_status_if_up_to_date := true
    hashToStr := fun h => toString h }

/-- The peer-facing variant of `wClient`. -/
def wPeer : SeederService Nat Nat :=
  { wClient with echo_ledger_status_if_up_to_date := false }

/-- A Merkle engine whose stored current root coincides with the
full-prefix root of a 5-element ledger (the situation of a real tree). -/
def wTree2 : MerkleTree Nat :=
  { root_hash := 5
    merkle_tree_hash := fun a b => (100 * a + b).toNat
    consistency_proof := fun a b => [a.toNat, b.toNat] }

/-- The 5-element ledger over `wTree2`. -/
def wLedger2 : Ledger Nat Nat :=
  { size := 5
    tree := wTree2
    getAllTxn := fun a b => (intRange a b).map (fun i => (i, i.toNat * 7)) }

/-- A seeder with `wLedger2` registered under ledger id 2. -/
def wRooted : SeederService Nat Nat :=
  { wClient with ledgers := [(2, wLedger2)] }

/-! ### Claims -/

/-- Claim C1: for every `LedgerStatus` whose `ledgerId` is registered and
whose `txnSeqNo` satisfies `0 ≤ txnSeqNo < ledger.size`,
`process_ledger_status` sends exactly one `ConsistencyProof` to the
sender, with `seqNoStart = txnSeqNo` and `seqNoEnd = ledger.size`. -/
theorem claimC1 {Hash Txn : Type} (s : SeederService Hash Txn)
    (status : LedgerStatus) (frm : String) (ledger : Ledger Hash Txn)
    (hreg : dictGet s.ledgers status.ledgerId = some ledger)
    (h0 : 0 ≤ status.txnSeqNo) (hlt : status.txnSeqNo < ledger.size) :
    ∃ cp : ConsistencyProof,
      s.process_ledger_status status frm = some (s, [OutMsg.consistencyProof cp frm]) ∧
      cp.seqNoStart = status.txnSeqNo ∧ cp.seqNoEnd = ledger.size := by
  simp only [SeederService.process_ledger_status, SeederService.get_ledger_and_id, hreg]
  rw [if_neg (by omega), if_neg (by omega)]
  simp only [SeederService.build_consistency_proof, hreg]
  rw [if_neg (by omega), if_neg (by omega), if_neg (by omega)]
  exact ⟨_, rfl, rfl, rfl⟩

/-- Witness for C1: a status with `txnSeqNo = 3` against the concrete
5-element ledger yields one consistency proof spanning `(3, 5)`. -/
theorem claimC1_witness :
    ∃ cp : ConsistencyProof,
      wClient.process_ledger_status
        { ledgerId := 1, txnSeqNo := 3, viewNo := 0, ppSeqNo := 0,
          merkleRoot := "", protocolVersion := 2 } "peer1" =
        some (wClient, [OutMsg.consistencyProof cp "peer1"]) ∧
      cp.seqNoStart = 3 ∧ cp.seqNoEnd = wLedger.size :=
  claimC1 wClient
    { ledgerId := 1, txnSeqNo := 3, viewNo := 0, ppSeqNo := 0,
      merkleRoot := "", protocolVersion := 2 } "peer1" wLedger rfl
    (by decide) (by decide)

/-! ### List infrastructure for the transaction maps -/

/-- `insertByKey` grows the length by one. -/
theorem insertByKey_length {Txn : Type} (p : Int × Txn) (l : List (Int × Txn)) :
    (insertByKey p l).length = l.length + 1 := by
  induction l with
  | nil => rfl
  | cons q qs ih =>
    simp only [insertByKey]
    by_cases h : p.1 ≤ q.1
    · rw [if_pos h]; rfl
    · rw [if_neg h]; simp [ih]

/-- `sortByKey` preserves the length. -/
theorem sortByKey_length {Txn : Type} (l : List (Int × Txn)) :
    (sortByKey l).length = l.length := by
  induction l with
  | nil => rfl
  | cons p ps ih => simp [sortByKey, insertByKey_length, ih]

/-- Reordering a list that is already in ascending key order is the
identity. -/
theorem sortByKey_eq_self {Txn : Type} {l : List (Int × Txn)}
    (h : List.Pairwise (fun p q => p.1 ≤ q.1) l) : sortByKey l = l := by
  induction l with
  | nil => rfl
  | cons p ps ih =>
    have hps := h.tail
    have hhead := (List.pairwise_cons.mp h).1
    rw [sortByKey, ih hps]
    cases ps with
    | nil => rfl
    | cons q qs => simp [insertByKey, hhead q (by simp)]

/-- In a list whose keys are strictly ascending, the last element has the
maximal key. -/
theorem last_key_is_max {Txn : Type} {l : List (Int × Txn)} {x : Int × Txn}
    (hs : List.Pairwise (fun p q => p.1 < q.1) l) (hx : l.getLast? = some x) :
    ∀ p ∈ l, p.1 ≤ x.1 := by
  induction l with
  | nil => simp at hx
  | cons a t ih =>
    cases t with
    | nil =>
      simp only [List.getLast?_singleton, Option.some.injEq] at hx
      intro p hp
      simp only [List.mem_singleton] at hp
      exact hp ▸ hx ▸ le_refl _
    | cons b t' =>
      rw [List.getLast?_cons_cons] at hx
      intro p hp
      rcases List.mem_cons.mp hp with rfl | hp'
      · have hxmem : x ∈ b :: t' :=
          List.mem_of_mem_getLast? (Option.mem_def.mpr hx)
        exact le_of_lt ((List.pairwise_cons.mp hs).1 x hxmem)
      · exact ih hs.tail hx p hp'

/-- Claim C4: the splitter returns `None` on fewer than 2 transactions;
on `n ≥ 2` transactions (keys ascending) it returns two halves whose
`txns` are the first `⌊n/2⌋` and the remaining `n − ⌊n/2⌋` entries,
whose concatenation is the original `txns`, both carrying the original
`ledgerId`. -/
theorem claimC4 {Hash Txn : Type} (s : SeederService Hash Txn)
    (ledger : Ledger Hash Txn) (tillT : Int) (msg : CatchupRep Txn)
    (hsorted : List.Pairwise (fun p q => p.1 < q.1) msg.txns) :
    (msg.txns.length < 2 → s.catchup_rep_split ledger tillT msg = some none) ∧
    (2 ≤ msg.txns.length →
      ∃ l r, s.catchup_rep_split ledger tillT msg = some (some (l, r)) ∧
        l.txns = msg.txns.take (msg.txns.length / 2) ∧
        r.txns = msg.txns.drop (msg.txns.length / 2) ∧
        l.txns ++ r.txns = msg.txns ∧
        l.ledgerId = msg.ledgerId ∧ r.ledgerId = msg.ledgerId) := by
  constructor
  · intro hlt
    simp only [SeederService.catchup_rep_split]
    rw [if_pos hlt]
  · intro h2
    have hd1 : 1 ≤ msg.txns.length / 2 := by omega
    have hltake : (msg.txns.take (msg.txns.length / 2)).length = msg.txns.length / 2 := by
      simp; omega
    have hldrop : (msg.txns.drop (msg.txns.length / 2)).length =
        msg.txns.length - msg.txns.length / 2 := by simp
    obtain ⟨xl, hxl⟩ : ∃ x, (msg.txns.take (msg.txns.length / 2)).getLast? = some x := by
      cases hc : (msg.txns.take (msg.txns.length / 2)).getLast? with
      | none =>
        rw [List.getLast?_eq_none_iff] at hc
        rw [hc] at hltake
        simp at hltake
        omega
      | some x => exact ⟨x, rfl⟩
    obtain ⟨xr, hxr⟩ : ∃ x, (msg.txns.drop (msg.txns.length / 2)).getLast? = some x := by
      cases hc : (msg.txns.drop (msg.txns.length / 2)).getLast? with
      | none =>
        rw [List.getLast?_eq_none_iff] at hc
        rw [hc] at hldrop
        simp at hldrop
        omega
      | some x => exact ⟨x, rfl⟩
    have hsl : List.Pairwise (fun p q : Int × Txn => p.1 ≤ q.1)
        (msg.txns.take (msg.txns.length / 2)) :=
      (List.Pairwise.sublist (List.take_sublist _ _) hsorted).imp (fun h => le_of_lt h)
    have hsr : List.Pairwise (fun p q : Int × Txn => p.1 ≤ q.1)
        (msg.txns.drop (msg.txns.length / 2)) :=
      (List.Pairwise.sublist (List.drop_sublist _ _) hsorted).imp (fun h => le_of_lt h)
    refine ⟨⟨msg.ledgerId, sortByKey (msg.txns.take (msg.txns.length / 2)),
             s.make_consistency_proof ledger xl.1 tillT⟩,
            ⟨msg.ledgerId, sortByKey (msg.txns.drop (msg.txns.length / 2)),
             s.make_consistency_proof ledger xr.1 tillT⟩, ?_, ?_, ?_, ?_, rfl, rfl⟩
    · simp only [SeederService.catchup_rep_split]
      rw [if_neg (by omega), hxl, hxr]
    · exact sortByKey_eq_self hsl
    · exact sortByKey_eq_self hsr
    · show sortByKey _ ++ sortByKey _ = _
      rw [sortByKey_eq_self hsl, sortByKey_eq_self hsr, List.take_append_drop]

/-- Witness for C4: splitting a concrete 3-entry reply yields halves of
1 and 2 entries that concatenate back to the original, and a 1-entry
reply is not split. -/
theorem claimC4_witness :
    (∃ l r,
      wClient.catchup_rep_split wLedger 5 ⟨1, [(1, 10), (2, 20), (3, 30)], []⟩ =
          some (some (l, r)) ∧
        l.txns = ([(1, 10), (2, 20), (3, 30)] : List (Int × Nat)).take 1 ∧
        r.txns = ([(1, 10), (2, 20), (3, 30)] : List (Int × Nat)).drop 1 ∧
        l.txns ++ r.txns = [(1, 10), (2, 20), (3, 30)] ∧
        l.ledgerId = 1 ∧ r.ledgerId = 1) ∧
    wClient.catchup_rep_split wLedger 5 (⟨1, [(9, 99)], []⟩ : CatchupRep Nat) = some none :=
  ⟨(claimC4 wClient wLedger 5 ⟨1, [(1, 10), (2, 20), (3, 30)], []⟩ (by decide)).2
     (by decide),
   (claimC4 wClient wLedger 5 (⟨1, [(9, 99)], []⟩ : CatchupRep Nat) (by decide)).1
     (by decide)⟩

/-- Claim C10: when the splitter does split (`n ≥ 2` transactions), the
left half holds `⌊n/2⌋ ≥ 1` entries and the right half `n − ⌊n/2⌋ ≥ 1`
entries, so both halves are non-empty, the last-element accesses cannot
fail (no crash: the result is a genuine pair), and no produced
`CatchupRep` has an empty transaction map. -/
theorem claimC10 {Hash Txn : Type} (s : SeederService Hash Txn)
    (ledger : Ledger Hash Txn) (tillT : Int) (msg : CatchupRep Txn)
    (h2 : 2 ≤ msg.txns.length) :
    ∃ l r, s.catchup_rep_split ledger tillT msg = some (some (l, r)) ∧
      l.txns.length = msg.txns.length / 2 ∧
      r.txns.length = msg.txns.length - msg.txns.length / 2 ∧
      1 ≤ l.txns.length ∧ 1 ≤ r.txns.length ∧
      l.txns ≠ [] ∧ r.txns ≠ [] := by
  have hltake : (msg.txns.take (msg.txns.length / 2)).length = msg.txns.length / 2 := by
    simp; omega
  have hldrop : (msg.txns.drop (msg.txns.length / 2)).length =
      msg.txns.length - msg.txns.length / 2 := by simp
  obtain ⟨xl, hxl⟩ : ∃ x, (msg.txns.take (msg.txns.length / 2)).getLast? = some x := by
    cases hc : (msg.txns.take (msg.txns.length / 2)).getLast? with
    | none =>
      rw [List.getLast?_eq_none_iff] at hc
      rw [hc] at hltake
      simp at hltake
      omega
    | some x => exact ⟨x, rfl⟩
  obtain ⟨xr, hxr⟩ : ∃ x, (msg.txns.drop (msg.txns.length / 2)).getLast? = some x := by
    cases hc : (msg.txns.drop (msg.txns.length / 2)).getLast? with
    | none =>
      rw [List.getLast?_eq_none_iff] at hc
      rw [hc] at hldrop
      simp at hldrop
      omega
    | some x => exact ⟨x, rfl⟩
  refine ⟨⟨msg.ledgerId, sortByKey (msg.txns.take (msg.txns.length / 2)),
           s.make_consistency_proof ledger xl.1 tillT⟩,
          ⟨msg.ledgerId, sortByKey (msg.txns.drop (msg.txns.length / 2)),
           s.make_consistency_proof ledger xr.1 tillT⟩, ?_, ?_, ?_, ?_, ?_, ?_, ?_⟩
  · simp only [SeederService.catchup_rep_split]
    rw [if_neg (by omega), hxl, hxr]
  · rw [sortByKey_length, hltake]
  · rw [sortByKey_length, hldrop]
  · show 1 ≤ (sortByKey _).length
    rw [sortByKey_length, hltake]; omega
  · show 1 ≤ (sortByKey _).length
    rw [sortByKey_length, hldrop]; omega
  · show sortByKey _ ≠ []
    intro hnil
    have := sortByKey_length (msg.txns.take (msg.txns.length / 2))
    rw [hnil, hltake] at this
    simp at this
    omega
  · show sortByKey _ ≠ []
    intro hnil
    have := sortByKey_length (msg.txns.drop (msg.txns.length / 2))
    rw [hnil, hldrop] at this
    simp at this
    omega

/-- Witness for C10: splitting a 5-entry reply gives non-empty halves of
2 and 3 entries. -/
theorem claimC10_witness :
    ∃ l r, wClient.catchup_rep_split wLedger 9
        (⟨1, [(1, 1), (2, 2), (3, 3), (4, 4), (5, 5)], []⟩ : CatchupRep Nat) =
        some (some (l, r)) ∧
      l.txns.length = 2 ∧ r.txns.length = 3 ∧
      1 ≤ l.txns.length ∧ 1 ≤ r.txns.length ∧
      l.txns ≠ [] ∧ r.txns ≠ [] :=
  claimC10 wClient wLedger 9
    (⟨1, [(1, 1), (2, 2), (3, 3), (4, 4), (5, 5)], []⟩ : CatchupRep Nat) (by decide)

/-- Claim C5: each half produced by the splitter bound to `catchupTill`
carries a fresh consistency proof computed from the maximal SeqNo it
contains up to `catchupTill`, serialized hash by hash. -/
theorem claimC5 {Hash Txn : Type} (s : SeederService Hash Txn)
    (ledger : Ledger Hash Txn) (tillT : Int) (msg : CatchupRep Txn)
    (hsorted : List.Pairwise (fun p q => p.1 < q.1) msg.txns)
    (h2 : 2 ≤ msg.txns.length) :
    ∃ l r, s.catchup_rep_split ledger tillT msg = some (some (l, r)) ∧
      ∃ lastL lastR,
        l.txns.getLast? = some lastL ∧ (∀ p ∈ l.txns, p.1 ≤ lastL.1) ∧
        l.consProof = (ledger.tree.consistency_proof lastL.1 tillT).map s.hashToStr ∧
        r.txns.getLast? = some lastR ∧ (∀ p ∈ r.txns, p.1 ≤ lastR.1) ∧
        r.consProof = (ledger.tree.consistency_proof lastR.1 tillT).map s.hashToStr := by
  have hltake : (msg.txns.take (msg.txns.length / 2)).length = msg.txns.length / 2 := by
    simp; omega
  have hldrop : (msg.txns.drop (msg.txns.length / 2)).length =
      msg.txns.length - msg.txns.length / 2 := by simp
  obtain ⟨xl, hxl⟩ : ∃ x, (msg.txns.take (msg.txns.length / 2)).getLast? = some x := by
    cases hc : (msg.txns.take (msg.txns.length / 2)).getLast? with
    | none =>
      rw [List.getLast?_eq_none_iff] at hc
      rw [hc] at hltake
      simp at hltake
      omega
    | some x => exact ⟨x, rfl⟩
  obtain ⟨xr, hxr⟩ : ∃ x, (msg.txns.drop (msg.txns.length / 2)).getLast? = some x := by
    cases hc : (msg.txns.drop (msg.txns.length / 2)).getLast? with
    | none =>
      rw [List.getLast?_eq_none_iff] at hc
      rw [hc] at hldrop
      simp at hldrop
      omega
    | some x => exact ⟨x, rfl⟩
  have hstl : List.Pairwise (fun p q : Int × Txn => p.1 < q.1)
      (msg.txns.take (msg.txns.length / 2)) :=
    List.Pairwise.sublist (List.take_sublist _ _) hsorted
  have hstr : List.Pairwise (fun p q : Int × Txn => p.1 < q.1)
      (msg.txns.drop (msg.txns.length / 2)) :=
    List.Pairwise.sublist (List.drop_sublist _ _) hsorted
  have heql : sortByKey (msg.txns.take (msg.txns.length / 2)) =
      msg.txns.take (msg.txns.length / 2) :=
    sortByKey_eq_self (hstl.imp (fun h => le_of_lt h))
  have heqr : sortByKey (msg.txns.drop (msg.txns.length / 2)) =
      msg.txns.drop (msg.txns.length / 2) :=
    sortByKey_eq_self (hstr.imp (fun h => le_of_lt h))
  refine ⟨⟨msg.ledgerId, sortByKey (msg.txns.take (msg.txns.length / 2)),
           s.make_consistency_proof ledger xl.1 tillT⟩,
          ⟨msg.ledgerId, sortByKey (msg.txns.drop (msg.txns.length / 2)),
           s.make_consistency_proof ledger xr.1 tillT⟩, ?_,
          xl, xr, ?_, ?_, rfl, ?_, ?_, rfl⟩
  · simp only [SeederService.catchup_rep_split]
    rw [if_neg (by omega), hxl, hxr]
  · show (sortByKey _).getLast? = some xl
    rw [heql]; exact hxl
  · show ∀ p ∈ sortByKey _, p.1 ≤ xl.1
    rw [heql]; exact last_key_is_max hstl hxl
  · show (sortByKey _).getLast? = some xr
    rw [heqr]; exact hxr
  · show ∀ p ∈ sortByKey _, p.1 ≤ xr.1
    rw [heqr]; exact last_key_is_max hstr hxr

/-- Witness for C5: in the concrete 4-entry split bound to
`catchupTill = 7`, the halves end at SeqNos 2 and 4 and carry the
serialized proofs `consistency_proof(2, 7)` and `consistency_proof(4, 7)`. -/
theorem claimC5_witness :
    ∃ l r, wClient.catchup_rep_split wLedger 7
        (⟨1, [(1, 1), (2, 2), (3, 3), (4, 4)], []⟩ : CatchupRep Nat) =
        some (some (l, r)) ∧
      ∃ lastL lastR,
        l.txns.getLast? = some lastL ∧ (∀ p ∈ l.txns, p.1 ≤ lastL.1) ∧
        l.consProof = (wLedger.tree.consistency_proof lastL.1 7).map wClient.hashToStr ∧
        r.txns.getLast? = some lastR ∧ (∀ p ∈ r.txns, p.1 ≤ lastR.1) ∧
        r.consProof = (wLedger.tree.consistency_proof lastR.1 7).map wClient.hashToStr :=
  claimC5 wClient wLedger 7
    (⟨1, [(1, 1), (2, 2), (3, 3), (4, 4)], []⟩ : CatchupRep Nat)
    (by decide) (by decide)

/-! ### Helpers about `_build_consistency_proof` -/

/-- On a registered ledger with `a ≤ b ≤ size`, `_build_consistency_proof`
returns normally, and the returned record is as the source constructs
it. -/
theorem build_consistency_proof_ok {Hash Txn : Type} (s : SeederService Hash Txn)
    (lid a b : Int) (ledger : Ledger Hash Txn)
    (hreg : dictGet s.ledgers lid = some ledger)
    (hab : a ≤ b) (hbs : b ≤ ledger.size) :
    s.build_consistency_proof lid a b = some (Except.ok
      { ledgerId := lid
        seqNoStart := a
        seqNoEnd := b
        viewNo := ((s.provider.three_phase_key_for_txn_seq_no lid b).getD (0, 0)).1
        ppSeqNo := ((s.provider.three_phase_key_for_txn_seq_no lid b).getD (0, 0)).2
        oldMerkleRoot := if a = 0 then s.hashToStr ledger.tree.root_hash
          else s.hashToStr (ledger.tree.merkle_tree_hash 0 a)
        newMerkleRoot := s.hashToStr (ledger.tree.merkle_tree_hash 0 b)
        hashes := if a = 0 then [s.hashToStr ledger.tree.root_hash]
          else s.make_consistency_proof ledger a b }) := by
  simp only [SeederService.build_consistency_proof, hreg]
  rw [if_neg (by omega), if_neg (by omega), if_neg (by omega)]
  by_cases ha : a = 0
  · simp [ha]
  · simp [ha]

/-- On the proof-sending path (registered ledger,
`0 ≤ txnSeqNo < size`), `process_ledger_status` forwards whatever
`_build_consistency_proof` returned. -/
theorem process_ledger_status_build_branch {Hash Txn : Type} (s : SeederService Hash Txn)
    (status : LedgerStatus) (frm : String) (ledger : Ledger Hash Txn)
    (hreg : dictGet s.ledgers status.ledgerId = some ledger)
    (h0 : 0 ≤ status.txnSeqNo) (hlt : status.txnSeqNo < ledger.size)
    (cp : ConsistencyProof)
    (hbuild : s.build_consistency_proof status.ledgerId status.txnSeqNo ledger.size
      = some (Except.ok cp)) :
    s.process_ledger_status status frm = some (s, [OutMsg.consistencyProof cp frm]) := by
  simp only [SeederService.process_ledger_status, SeederService.get_ledger_and_id, hreg]
  rw [if_neg (by omega), if_neg (by omega), hbuild]

/-- Claim C7: on a registered ledger with `txnSeqNo ≥ ledger.size`, the
client-facing seeder (`echo_ledger_status_if_up_to_date = true`) sends
exactly one message, its own ledger status built by the provider, and
the peer-facing seeder sends nothing. -/
theorem claimC7 {Hash Txn : Type} (s : SeederService Hash Txn)
    (status : LedgerStatus) (frm : String) (ledger : Ledger Hash Txn)
    (hreg : dictGet s.ledgers status.ledgerId = some ledger)
    (h0 : 0 ≤ status.txnSeqNo) (hge : ledger.size ≤ status.txnSeqNo) :
    s.process_ledger_status status frm =
      some (s,
        if s.echo_ledger_status_if_up_to_date then
          [OutMsg.ledgerStatus (s.provider.build_ledger_status status.ledgerId ledger) frm]
        else []) := by
  simp only [SeederService.process_ledger_status, SeederService.get_ledger_and_id, hreg]
  rw [if_neg (by omega), if_pos (by omega)]
  cases s.echo_ledger_status_if_up_to_date <;> simp

/-- Witness for C7: against the 5-element ledger a status with
`txnSeqNo = 7` makes the client variant echo one own-status message and
the peer variant send nothing. -/
theorem claimC7_witness :
    wClient.process_ledger_status
        { ledgerId := 1, txnSeqNo := 7, viewNo := 0, ppSeqNo := 0,
          merkleRoot := "", protocolVersion := 2 } "p" =
      some (wClient,
        [OutMsg.ledgerStatus (wClient.provider.build_ledger_status 1 wLedger) "p"]) ∧
    wPeer.process_ledger_status
        { ledgerId := 1, txnSeqNo := 7, viewNo := 0, ppSeqNo := 0,
          merkleRoot := "", protocolVersion := 2 } "p" =
      some (wPeer, []) :=
  ⟨claimC7 wClient
      { ledgerId := 1, txnSeqNo := 7, viewNo := 0, ppSeqNo := 0,
        merkleRoot := "", protocolVersion := 2 } "p" wLedger rfl
      (by decide) (by decide),
   claimC7 wPeer
      { ledgerId := 1, txnSeqNo := 7, viewNo := 0, ppSeqNo := 0,
        merkleRoot := "", protocolVersion := 2 } "p" wLedger rfl
      (by decide) (by decide)⟩

/-- Claim C6: building a consistency proof with `seqNoStart = 0` on a
registered ledger with `0 ≤ seqNoEnd ≤ size` puts the serialized current
root of the tree into `oldMerkleRoot`, sets `hashes` to the single
element `[oldMerkleRoot]`, and sets `newMerkleRoot` to the serialized
`merkle_tree_hash(0, seqNoEnd)`.  In particular, a `LedgerStatus` with
`txnSeqNo = 0` against a ledger of positive size (whose current root is
the size-`size` prefix root) gets a proof whose `oldMerkleRoot` is the
serialized root of the full tree. -/
theorem claimC6 {Hash Txn : Type} (s : SeederService Hash Txn) (lid e : Int)
    (ledger : Ledger Hash Txn)
    (hreg : dictGet s.ledgers lid = some ledger)
    (h0 : 0 ≤ e) (hle : e ≤ ledger.size) :
    (∃ cp, s.build_consistency_proof lid 0 e = some (Except.ok cp) ∧
      cp.oldMerkleRoot = s.hashToStr ledger.tree.root_hash ∧
      cp.hashes = [cp.oldMerkleRoot] ∧
      cp.newMerkleRoot = s.hashToStr (ledger.tree.merkle_tree_hash 0 e)) ∧
    (∀ (status : LedgerStatus) (frm : String),
      status.ledgerId = lid → status.txnSeqNo = 0 → 0 < ledger.size →
      ledger.tree.root_hash = ledger.tree.merkle_tree_hash 0 ledger.size →
      ∃ cp, s.process_ledger_status status frm =
          some (s, [OutMsg.consistencyProof cp frm]) ∧
        cp.oldMerkleRoot = s.hashToStr (ledger.tree.merkle_tree_hash 0 ledger.size)) := by
  constructor
  · refine ⟨_, build_consistency_proof_ok s lid 0 e ledger hreg h0 hle, ?_, ?_, ?_⟩ <;> simp
  · intro status frm hid hseq hpos hroot
    have hreg' : dictGet s.ledgers status.ledgerId = some ledger := by rw [hid]; exact hreg
    have hbuild := build_consistency_proof_ok s status.ledgerId status.txnSeqNo
      ledger.size ledger hreg' (by omega) (by omega)
    refine ⟨_, process_ledger_status_build_branch s status frm ledger hreg'
      (by omega) (by omega) _ hbuild, ?_⟩
    simp [hseq, ← hroot]

/-- Witness for C6: on a concrete ledger whose stored root equals the
full-prefix root, `build_consistency_proof 2 0 3` yields the quirky
single-element proof, and a zero status yields a proof carrying the
full root. -/
theorem claimC6_witness :
    (∃ cp, wRooted.build_consistency_proof 2 0 3 = some (Except.ok cp) ∧
      cp.oldMerkleRoot = wRooted.hashToStr wLedger2.tree.root_hash ∧
      cp.hashes = [cp.oldMerkleRoot] ∧
      cp.newMerkleRoot = wRooted.hashToStr (wLedger2.tree.merkle_tree_hash 0 3)) ∧
    (∃ cp, wRooted.process_ledger_status
        { ledgerId := 2, txnSeqNo := 0, viewNo := 0, ppSeqNo := 0,
          merkleRoot := "", protocolVersion := 2 } "p" =
        some (wRooted, [OutMsg.consistencyProof cp "p"]) ∧
      cp.oldMerkleRoot =
        wRooted.hashToStr (wLedger2.tree.merkle_tree_hash 0 wLedger2.size)) :=
  ⟨(claimC6 wRooted 2 3 wLedger2 rfl (by decide) (by decide)).1,
   (claimC6 wRooted 2 3 wLedger2 rfl (by decide) (by decide)).2
      { ledgerId := 2, txnSeqNo := 0, viewNo := 0, ppSeqNo := 0,
        merkleRoot := "", protocolVersion := 2 } "p" rfl rfl (by decide) (by decide)⟩

/-- Claim C8: on a registered ledger, `_build_consistency_proof` raises
`ValueError` exactly when `seq_no_end < seq_no_start`, or
`seq_no_start > ledger.size`, or `seq_no_end > ledger.size`; and
`process_ledger_status` never lets an exception escape (every call
returns normally, with the state unchanged) since the only raised
`ValueError` is caught and the message dropped. -/
theorem claimC8 {Hash Txn : Type} (s : SeederService Hash Txn) (lid a b : Int)
    (ledger : Ledger Hash Txn) (hreg : dictGet s.ledgers lid = some ledger) :
    ((∃ e, s.build_consistency_proof lid a b = some (Except.error e)) ↔
      (b < a ∨ a > ledger.size ∨ b > ledger.size)) ∧
    (∀ (status : LedgerStatus) (frm : String),
      ∃ out, s.process_ledger_status status frm = some (s, out)) := by
  constructor
  · constructor
    · rintro ⟨e, he⟩
      by_contra hc
      push_neg at hc
      rw [build_consistency_proof_ok s lid a b ledger hreg (by omega) (by omega)] at he
      simp at he
    · intro h
      simp only [SeederService.build_consistency_proof, hreg]
      by_cases h1 : b < a
      · rw [if_pos h1]; exact ⟨_, rfl⟩
      · rw [if_neg h1]
        by_cases h2 : a > ledger.size
        · rw [if_pos h2]; exact ⟨_, rfl⟩
        · rw [if_neg h2, if_pos (by omega)]
          exact ⟨_, rfl⟩
  · intro status frm
    cases hd : dictGet s.ledgers status.ledgerId with
    | none =>
      simp only [SeederService.process_ledger_status, SeederService.get_ledger_and_id, hd]
      exact ⟨[], rfl⟩
    | some ledger' =>
      simp only [SeederService.process_ledger_status, SeederService.get_ledger_and_id, hd]
      by_cases h1 : status.txnSeqNo < 0
      · rw [if_pos h1]; exact ⟨[], rfl⟩
      · rw [if_neg h1]
        by_cases h2 : status.txnSeqNo ≥ ledger'.size
        · rw [if_pos h2]
          cases s.echo_ledger_status_if_up_to_date
          · simp
          · simp
        · rw [if_neg h2]
          rw [build_consistency_proof_ok s status.ledgerId status.txnSeqNo
            ledger'.size ledger' hd (by omega) (by omega)]
          exact ⟨_, rfl⟩

/-- Witness for C8: with the 5-element ledger, `(7, 6)` is rejected as a
`ValueError` (indeed `6 < 7`), and every status call on the concrete
seeder returns normally. -/
theorem claimC8_witness :
    ((∃ e, wClient.build_consistency_proof 1 7 6 = some (Except.error e)) ↔
      ((6 : Int) < 7 ∨ (7 : Int) > wLedger.size ∨ (6 : Int) > wLedger.size)) ∧
    (∀ (status : LedgerStatus) (frm : String),
      ∃ out, wClient.process_ledger_status status frm = some (wClient, out)) :=
  claimC8 wClient 1 7 6 wLedger rfl

/-- Claim C3: every message failing a validation rule — a `LedgerStatus`
with an unregistered `ledgerId` or negative `txnSeqNo`, or a `CatchupReq`
with an unregistered `ledgerId`, `seqNoStart > seqNoEnd`,
`seqNoEnd > catchupTill`, or `catchupTill > ledger.size` — produces zero
outbound messages and leaves the seeder state unchanged. -/
theorem claimC3 {Hash Txn : Type} (s : SeederService Hash Txn)
    (status : LedgerStatus) (req : CatchupReq) (frm : String) :
    ((dictGet s.ledgers status.ledgerId = none ∨ status.txnSeqNo < 0) →
      s.process_ledger_status status frm = some (s, [])) ∧
    ((dictGet s.ledgers req.ledgerId = none ∨
      (∃ ledger, dictGet s.ledgers req.ledgerId = some ledger ∧
        (req.seqNoStart > req.seqNoEnd ∨ req.seqNoEnd > req.catchupTill ∨
         req.catchupTill > ledger.size))) →
      s.process_catchup_req req frm = (s, [])) := by
  constructor
  · intro h
    cases hd : dictGet s.ledgers status.ledgerId with
    | none =>
      simp only [SeederService.process_ledger_status, SeederService.get_ledger_and_id, hd]
    | some ledger =>
      have hneg : status.txnSeqNo < 0 := by
        rcases h with h | h
        · rw [hd] at h; cases h
        · exact h
      simp only [SeederService.process_ledger_status, SeederService.get_ledger_and_id, hd]
      rw [if_pos hneg]
  · intro h
    cases hd : dictGet s.ledgers req.ledgerId with
    | none =>
      simp only [SeederService.process_catchup_req, SeederService.get_ledger_and_id, hd]
    | some ledger =>
      rcases h with h | ⟨ledger', hl', hcond⟩
      · rw [hd] at h; cases h
      · rw [hd] at hl'
        injection hl' with he
        subst he
        simp only [SeederService.process_catchup_req, SeederService.get_ledger_and_id, hd]
        by_cases hc1 : req.seqNoStart > req.seqNoEnd
        · rw [if_pos hc1]
        · rw [if_neg hc1]
          by_cases hc2 : req.seqNoEnd > req.catchupTill
          · rw [if_pos hc2]
          · rw [if_neg hc2, if_pos (by omega)]

/-- Witness for C3: a status naming unregistered ledger 9 and a request
with `seqNoStart > seqNoEnd` are both dropped with no output. -/
theorem claimC3_witness :
    wClient.process_ledger_status
        { ledgerId := 9, txnSeqNo := 3, viewNo := 0, ppSeqNo := 0,
          merkleRoot := "", protocolVersion := 2 } "p" = some (wClient, []) ∧
    wClient.process_catchup_req ⟨1, 7, 5, 10⟩ "p" = (wClient, []) :=
  ⟨(claimC3 wClient
      { ledgerId := 9, txnSeqNo := 3, viewNo := 0, ppSeqNo := 0,
        merkleRoot := "", protocolVersion := 2 } ⟨1, 7, 5, 10⟩ "p").1
      (Or.inl rfl),
   (claimC3 wClient
      { ledgerId := 9, txnSeqNo := 3, viewNo := 0, ppSeqNo := 0,
        merkleRoot := "", protocolVersion := 2 } ⟨1, 7, 5, 10⟩ "p").2
      (Or.inr ⟨wLedger, rfl, Or.inl (by decide)⟩)⟩

/-! ### Helpers about the transaction dict of `process_catchup_req` -/

/-- Folding the dict-update over pairs whose keys are fresh and mutually
distinct just appends the decorated pairs in order. -/
theorem buildTxnsDict_aux {Hash Txn : Type} (s : SeederService Hash Txn)
    (pairs : List (Int × Txn)) :
    ∀ acc : List (Int × Txn),
    (∀ p ∈ pairs, ∀ q ∈ acc, p.1 ≠ q.1) →
    (pairs.map Prod.fst).Nodup →
    pairs.foldl
        (fun d p => pyDictInsert d p.1 (s.provider.update_txn_with_extra_data p.2)) acc =
      acc ++ pairs.map (fun p => (p.1, s.provider.update_txn_with_extra_data p.2)) := by
  induction pairs with
  | nil => intro acc _ _; simp
  | cons p ps ih =>
    intro acc hdisj hnodup
    simp only [List.foldl_cons, List.map_cons]
    have hno : ¬(acc.any (fun q => q.1 == p.1) = true) := by
      intro hany
      rw [List.any_eq_true] at hany
      obtain ⟨q, hq, hbeq⟩ := hany
      exact hdisj p (List.mem_cons_self p ps) q hq ((beq_iff_eq.mp hbeq).symm)
    have hstep : pyDictInsert acc p.1 (s.provider.update_txn_with_extra_data p.2) =
        acc ++ [(p.1, s.provider.update_txn_with_extra_data p.2)] := by
      unfold pyDictInsert
      rw [if_neg hno]
    rw [hstep]
    have hfresh : p.1 ∉ ps.map Prod.fst ∧ (ps.map Prod.fst).Nodup := by
      have := hnodup
      rw [List.map_cons, List.nodup_cons] at this
      exact this
    rw [ih (acc ++ [(p.1, s.provider.update_txn_with_extra_data p.2)]) ?_ hfresh.2]
    · simp
    · intro a ha q hq
      rcases List.mem_append.mp hq with hq' | hq'
      · exact hdisj a (List.mem_cons_of_mem _ ha) q hq'
      · have hq'' : q = (p.1, s.provider.update_txn_with_extra_data p.2) := by
          simpa using hq'
        rw [hq'']
        intro hcontra
        exact hfresh.1 (hcontra ▸ List.mem_map_of_mem Prod.fst ha)

/-- When the iterated keys are distinct, the dict built by
`process_catchup_req` is exactly the decorated pair list, in iteration
order. -/
theorem buildTxnsDict_eq_map {Hash Txn : Type} (s : SeederService Hash Txn)
    (pairs : List (Int × Txn)) (hnodup : (pairs.map Prod.fst).Nodup) :
    buildTxnsDict s pairs =
      pairs.map (fun p => (p.1, s.provider.update_txn_with_extra_data p.2)) := by
  have := buildTxnsDict_aux s pairs [] (by simp) hnodup
  simpa [buildTxnsDict] using this

/-- `intRange` has `(b − a + 1).toNat` elements. -/
theorem intRange_length (a b : Int) : (intRange a b).length = (b - a + 1).toNat := by
  unfold intRange
  rw [List.length_map, List.length_range]

/-- `intRange` is strictly ascending. -/
theorem intRange_pairwise (a b : Int) :
    List.Pairwise (fun x y : Int => x < y) (intRange a b) := by
  unfold intRange
  rw [List.pairwise_map]
  refine (List.pairwise_lt_range _).imp ?_
  intro i j h
  show a + Int.ofNat i < a + Int.ofNat j
  simp only [Int.ofNat_eq_coe]
  omega

/-- Claim C2: a valid `CatchupReq(lid, a, b, T)` (registered ledger,
`a ≤ b ≤ T ≤ size`) whose range iteration yields exactly the SeqNos
`a, …, b` in ascending order produces exactly one `CatchupRep` with the
same ledger id, whose `txns` are the decorated stored transactions keyed
by `{a, …, b}` in ascending order (`b − a + 1` entries), and whose
`consProof` is the serialized `consistency_proof(b, T)`. -/
theorem claimC2 {Hash Txn : Type} (s : SeederService Hash Txn) (req : CatchupReq)
    (frm : String) (ledger : Ledger Hash Txn)
    (hreg : dictGet s.ledgers req.ledgerId = some ledger)
    (h1 : req.seqNoStart ≤ req.seqNoEnd) (h2 : req.seqNoEnd ≤ req.catchupTill)
    (h3 : req.catchupTill ≤ ledger.size)
    (hkeys : (ledger.getAllTxn req.seqNoStart req.seqNoEnd).map Prod.fst =
      intRange req.seqNoStart req.seqNoEnd) :
    s.process_catchup_req req frm =
      (s, [OutMsg.catchupRep
        { ledgerId := req.ledgerId
          txns := (ledger.getAllTxn req.seqNoStart req.seqNoEnd).map
            (fun p => (p.1, s.provider.update_txn_with_extra_data p.2))
          consProof := (ledger.tree.consistency_proof req.seqNoEnd req.catchupTill).map
            s.hashToStr } frm]) ∧
    ((ledger.getAllTxn req.seqNoStart req.seqNoEnd).map
        (fun p => (p.1, s.provider.update_txn_with_extra_data p.2))).map Prod.fst =
      intRange req.seqNoStart req.seqNoEnd ∧
    ((ledger.getAllTxn req.seqNoStart req.seqNoEnd).map
        (fun p => (p.1, s.provider.update_txn_with_extra_data p.2))).length =
      (req.seqNoEnd - req.seqNoStart + 1).toNat := by
  have hfst : ((ledger.getAllTxn req.seqNoStart req.seqNoEnd).map
      (fun p => (p.1, s.provider.update_txn_with_extra_data p.2))).map Prod.fst =
      (ledger.getAllTxn req.seqNoStart req.seqNoEnd).map Prod.fst := by
    rw [List.map_map]
    exact List.map_congr_left (fun p _ => rfl)
  have hnodup : ((ledger.getAllTxn req.seqNoStart req.seqNoEnd).map Prod.fst).Nodup := by
    rw [hkeys]
    exact (intRange_pairwise _ _).imp (fun h => ne_of_lt h)
  have hpw : List.Pairwise (fun p q : Int × Txn => p.1 < q.1)
      (ledger.getAllTxn req.seqNoStart req.seqNoEnd) := by
    have hp := intRange_pairwise req.seqNoStart req.seqNoEnd
    rw [← hkeys, List.pairwise_map] at hp
    exact hp
  have hms : List.Pairwise (fun p q : Int × Txn => p.1 ≤ q.1)
      ((ledger.getAllTxn req.seqNoStart req.seqNoEnd).map
        (fun p => (p.1, s.provider.update_txn_with_extra_data p.2))) := by
    rw [List.pairwise_map]
    exact hpw.imp (fun h => le_of_lt h)
  refine ⟨?_, ?_, ?_⟩
  · simp only [SeederService.process_catchup_req, SeederService.get_ledger_and_id, hreg]
    rw [if_neg (by omega), if_neg (by omega), if_neg (by omega)]
    rw [show buildTxnsDict s (ledger.getAllTxn req.seqNoStart req.seqNoEnd) =
        (ledger.getAllTxn req.seqNoStart req.seqNoEnd).map
          (fun p => (p.1, s.provider.update_txn_with_extra_data p.2)) from
      buildTxnsDict_eq_map s _ hnodup]
    rw [sortByKey_eq_self hms]
  · rw [hfst, hkeys]
  · rw [List.length_map]
    have hlen : ((ledger.getAllTxn req.seqNoStart req.seqNoEnd).map Prod.fst).length =
        (ledger.getAllTxn req.seqNoStart req.seqNoEnd).length := List.length_map _ _
    rw [← hlen, hkeys, intRange_length]

/-- Witness for C2: `CatchupReq(1, 2, 4, 5)` against the concrete ledger
yields one reply holding the decorated transactions 2..4 and the
serialized `consistency_proof(4, 5)`. -/
theorem claimC2_witness :
    wClient.process_catchup_req ⟨1, 2, 4, 5⟩ "p" =
      (wClient, [OutMsg.catchupRep
        { ledgerId := 1
          txns := (wLedger.getAllTxn 2 4).map
            (fun p => (p.1, wClient.provider.update_txn_with_extra_data p.2))
          consProof := (wLedger.tree.consistency_proof 4 5).map
            wClient.hashToStr } "p"]) ∧
    ((wLedger.getAllTxn 2 4).map
        (fun p => (p.1, wClient.provider.update_txn_with_extra_data p.2))).map Prod.fst =
      intRange 2 4 ∧
    ((wLedger.getAllTxn 2 4).map
        (fun p => (p.1, wClient.provider.update_txn_with_extra_data p.2))).length =
      ((4 : Int) - 2 + 1).toNat :=
  claimC2 wClient ⟨1, 2, 4, 5⟩ "p" wLedger rfl (by decide) (by decide) (by decide)
    (by decide)

/-- Claim C9: a `CatchupReq` with `seqNoStart = 0` on a registered ledger
with `0 ≤ seqNoEnd ≤ catchupTill ≤ size` is not dropped: validation never
requires `seqNoStart ≥ 1`, the transactions are fetched with
`getAllTxn(0, seqNoEnd)` and one `CatchupRep` is emitted. -/
theorem claimC9 {Hash Txn : Type} (s : SeederService Hash Txn) (req : CatchupReq)
    (frm : String) (ledger : Ledger Hash Txn)
    (hreg : dictGet s.ledgers req.ledgerId = some ledger)
    (hstart : req.seqNoStart = 0)
    (h0 : 0 ≤ req.seqNoEnd) (h2 : req.seqNoEnd ≤ req.catchupTill)
    (h3 : req.catchupTill ≤ ledger.size) :
    s.process_catchup_req req frm =
      (s, [OutMsg.catchupRep
        { ledgerId := req.ledgerId
          txns := sortByKey (buildTxnsDict s (ledger.getAllTxn 0 req.seqNoEnd))
          consProof := (ledger.tree.consistency_proof req.seqNoEnd req.catchupTill).map
            s.hashToStr } frm]) := by
  simp only [SeederService.process_catchup_req, SeederService.get_ledger_and_id, hreg]
  rw [if_neg (by omega), if_neg (by omega), if_neg (by omega), hstart]

/-- Witness for C9: `CatchupReq(1, 0, 3, 5)` is answered, not dropped. -/
theorem claimC9_witness :
    wClient.process_catchup_req ⟨1, 0, 3, 5⟩ "p" =
      (wClient, [OutMsg.catchupRep
        { ledgerId := 1
          txns := sortByKey (buildTxnsDict wClient (wLedger.getAllTxn 0 3))
          consProof := (wLedger.tree.consistency_proof 3 5).map
            wClient.hashToStr } "p"]) :=
  claimC9 wClient ⟨1, 0, 3, 5⟩ "p" wLedger rfl rfl (by decide) (by decide) (by decide)
